import Mathlib

/-!
Verification development for the time-ai date-extraction-and-substitution
engine.  Texts are modelled as `List Char`, instants as integer milliseconds
since the Unix epoch, and IANA timezones as fixed UTC offsets in milliseconds
(daylight-saving transitions are outside the model).  JavaScript `Number`
arithmetic on millisecond quantities is modelled with `Int` (exact in the
ranges involved) and fractional arithmetic such as `Math.ceil(x / 86400000)`
with `ℚ`.
-/

namespace TimeAI

/-- `pat` occurs at the front of `s`. -/
def hasMatchAt : (pat s : List Char) → Bool
  | [], _ => true
  | _ :: _, [] => false
  | p :: ps, c :: cs => p == c && hasMatchAt ps cs

/-- JS `String.prototype.includes`: `pat` occurs contiguously in `s`. -/
def jsIncludes : (s pat : List Char) → Bool
  | [], pat => pat.isEmpty
  | s@(_ :: rest), pat => hasMatchAt pat s || jsIncludes rest pat

/-- JS `String.prototype.toLowerCase` (ASCII fragment, faithful for the
engine's English keyword sets). -/
def lcMap (s : List Char) : List Char :=
  s.map Char.toLower

/-- JS `String.prototype.substring(a, b)`: both indices are clamped to
`[0, length]` and swapped when out of order. -/
def jsSubstring (s : List Char) (a b : Nat) : List Char :=
  (s.take (max (min a s.length) (min b s.length))).drop
    (min (min a s.length) (min b s.length))

/-- JS `String.prototype.substring(a)` (one-argument form). -/
def jsSubstringFrom (s : List Char) (a : Nat) : List Char :=
  s.drop a

/-- Chrono parsed-component set (`result.start`): each component either known
(`some v`, whether explicit or grammar-implied) or absent (`none`), plus the
grammar's certainty flag for the time components (`isCertain`). -/
structure RawComponents where
  year : Option Int
  month : Option Int
  day : Option Int
  hour : Option Int
  minute : Option Int
  second : Option Int
  hourCertain : Bool
  minuteCertain : Bool
  secondCertain : Bool
deriving DecidableEq, Repr

/-- A raw grammar match (`chrono.ParsedResult`): the matched substring, its
character offset in the input, and its component set. -/
structure RawMatch where
  text : List Char
  index : Nat
  start : RawComponents
deriving DecidableEq, Repr

inductive Grain
  | day
  | hour
  | minute
  | second
deriving DecidableEq, Repr

inductive DType
  | absolute
  | relative
deriving DecidableEq, Repr

/-- `DateParser.determineGrain` (date-parser, certainty-based version): the
most precise time component the grammar marks certain, defaulting to day. -/
def determineGrain (r : RawMatch) : Grain :=
  if r.start.secondCertain then Grain.second
  else if r.start.minuteCertain then Grain.minute
  else if r.start.hourCertain then Grain.hour
  else Grain.day

/-- Grain prescribed by the specification's words: the most precise certain
time component — second over minute over hour — defaulting to day.  A pure
function of the certainty flags only, so a component the grammar filled in
by default can never influence it. -/
def mostPreciseCertainGrain (sec min hour : Bool) : Grain :=
  if sec then Grain.second
  else if min then Grain.minute
  else if hour then Grain.hour
  else Grain.day

def ambiguousWords : List (List Char) :=
  ["sometime".toList, "maybe".toList, "perhaps".toList, "possibly".toList,
   "around".toList, "about".toList, "ish".toList, "kinda".toList, "sorta".toList]

def clearIndicators : List (List Char) :=
  ["tomorrow".toList, "yesterday".toList, "today".toList,
   "next week".toList, "last month".toList]

/-- `DateParser.calculateConfidence`: base 0.7, adjusted by component
presence and keyword tests on the lowercased matched text, clamped to
`[0, 1]`. -/
def calculateConfidence (r : RawMatch) : ℚ :=
  let text := lcMap r.text
  let confidence : ℚ := 7/10
  let confidence := if r.start.hour.isSome then confidence + 15/100 else confidence
  let confidence := if r.start.minute.isSome then confidence + 1/10 else confidence
  let confidence := if r.start.year.isSome then confidence + 1/10 else confidence
  let confidence :=
    if ambiguousWords.any (fun w => jsIncludes text w) then confidence - 4/10 else confidence
  let confidence := if r.text.length ≤ 3 then confidence - 3/10 else confidence
  let confidence :=
    if clearIndicators.any (fun w => jsIncludes text w) then confidence + 2/10 else confidence
  min (max confidence 0) 1

def relativeKeywords : List (List Char) :=
  ["today".toList, "tomorrow".toList, "yesterday".toList,
   "next".toList, "last".toList, "this".toList,
   "in".toList, "ago".toList, "later".toList,
   "now".toList, "soon".toList, "recently".toList,
   "week".toList, "month".toList, "year".toList, "day".toList,
   "morning".toList, "afternoon".toList, "evening".toList, "night".toList,
   "end of".toList, "beginning of".toList, "start of".toList]

def strongRelativeIndicators : List (List Char) :=
  ["end of".toList, "beginning of".toList, "start of".toList,
   "next".toList, "last".toList, "this".toList,
   "today".toList, "tomorrow".toList, "yesterday".toList]

def monthNameWords : List (List Char) :=
  ["january".toList, "february".toList, "march".toList, "april".toList,
   "may".toList, "june".toList, "july".toList, "august".toList,
   "september".toList, "october".toList, "november".toList, "december".toList]

def monthAbbrevWords : List (List Char) :=
  ["jan".toList, "feb".toList, "mar".toList, "apr".toList, "may".toList,
   "jun".toList, "jul".toList, "aug".toList, "sep".toList, "oct".toList,
   "nov".toList, "dec".toList]

/-- The next `n` characters are decimal digits. -/
def startsWithDigits : Nat → List Char → Bool
  | 0, _ => true
  | _ + 1, [] => false
  | n + 1, ch :: rest => ch.isDigit && startsWithDigits n rest

/-- Regex test `/\d{n}/`: some position starts a run of `n` digits. -/
def containsDigitRun (n : Nat) : List Char → Bool
  | [] => n == 0
  | l@(_ :: rest) => startsWithDigits n l || containsDigitRun n rest

/-- The front of `l` matches `\d{1,2} sep \d{1,2} sep \d{4}`. -/
def dateSepAt (sep : Char) (l : List Char) : Bool :=
  [1, 2].any fun k1 =>
    startsWithDigits k1 l &&
      match l.drop k1 with
      | [] => false
      | s1 :: r1 =>
        s1 == sep &&
          ([1, 2].any fun k2 =>
            startsWithDigits k2 r1 &&
              match r1.drop k2 with
              | [] => false
              | s2 :: r2 => s2 == sep && startsWithDigits 4 r2)

/-- Regex test `/\d{1,2}sep\d{1,2}sep\d{4}/` (unanchored search). -/
def containsDateSep (sep : Char) : List Char → Bool
  | [] => false
  | l@(_ :: rest) => dateSepAt sep l || containsDateSep sep rest

/-- The `absoluteIndicators` regex battery of `DateParser.determineType`. -/
def absoluteIndicatorTest (text : List Char) : Bool :=
  containsDigitRun 4 text ||
  containsDateSep '/' text ||
  containsDateSep '-' text ||
  monthNameWords.any (fun w => jsIncludes text w) ||
  monthAbbrevWords.any (fun w => jsIncludes text w)

/-- `DateParser.determineType`. -/
def determineType (r : RawMatch) : DType :=
  let text := lcMap r.text
  if strongRelativeIndicators.any (fun w => jsIncludes text w) then DType.relative
  else if absoluteIndicatorTest text &&
      !(relativeKeywords.any (fun w => jsIncludes text w)) then DType.absolute
  else if relativeKeywords.any (fun w => jsIncludes text w) then DType.relative
  else DType.absolute

def msPerSecond : Int := 1000
def msPerMinute : Int := 60000
def msPerHour : Int := 3600000
def msPerDay : Int := 86400000

/-- `dayjs.startOf('day')` on a local wall-clock millisecond count
(`%` on `Int` with a positive modulus is floor-compatible). -/
def startOfDayLocal (wall : Int) : Int :=
  wall - wall % msPerDay

/-- `dayjs.hour(h)`: replace the wall hour field, keep day and sub-hour. -/
def setHourLocal (h wall : Int) : Int :=
  wall - wall % msPerDay + h * msPerHour + wall % msPerHour

/-- `dayjs.minute(m)`: replace the wall minute field. -/
def setMinuteLocal (m wall : Int) : Int :=
  wall - wall % msPerHour + m * msPerMinute + wall % msPerMinute

/-- `dayjs.second(s)`: replace the wall second field. -/
def setSecondLocal (s wall : Int) : Int :=
  wall - wall % msPerMinute + s * msPerSecond + wall % msPerSecond

/-- Proleptic-Gregorian civil date from a day count since 1970-01-01
(Hinnant's `civil_from_days`); month is 1-based. -/
def civilFromDays (z0 : Int) : Int × Int × Int :=
  let z := z0 + 719468
  let era := z / 146097
  let doe := z - era * 146097
  let yoe := (doe - doe / 1460 + doe / 36524 - doe / 146096) / 365
  let y := yoe + era * 400
  let doy := doe - (365 * yoe + yoe / 4 - yoe / 100)
  let mp := (5 * doy + 2) / 153
  let d := doy - (153 * mp + 2) / 5 + 1
  let m := if mp < 10 then mp + 3 else mp - 9
  (if m ≤ 2 then y + 1 else y, m, d)

/-- Day count since 1970-01-01 of a civil date (Hinnant's
`days_from_civil`); month is 1-based. -/
def daysFromCivil (y0 m d : Int) : Int :=
  let y := if m ≤ 2 then y0 - 1 else y0
  let era := y / 400
  let yoe := y - era * 400
  let doy := (153 * (if m > 2 then m - 3 else m + 9) + 2) / 5 + d - 1
  let doe := yoe * 365 + yoe / 4 - yoe / 100 + doy
  era * 146097 + doe - 719468

def isLeapYear (y : Int) : Bool :=
  (y % 4 == 0 && y % 100 != 0) || y % 400 == 0

/-- Length of 1-based month `m` in year `y`. -/
def daysInMonth (y m : Int) : Int :=
  if m == 2 then (if isLeapYear y then 29 else 28)
  else if m == 4 || m == 6 || m == 9 || m == 11 then 30
  else 31

/-- `dayjs.year(v)`: set the wall calendar year, clamping the day of month
to the new month's length (dayjs sets the date to 1, applies the field, and
restores `min(day, daysInMonth)`). -/
def setYearLocal (v wall : Int) : Int :=
  let (_, m, d) := civilFromDays (wall / msPerDay)
  let tod := wall % msPerDay
  daysFromCivil v m (min d (daysInMonth v m)) * msPerDay + tod

/-- `dayjs.month(mi)` (0-based month index): set the wall month with year
carry, clamping the day of month to the new month's length. -/
def setMonthLocal (mi wall : Int) : Int :=
  let (y, _, d) := civilFromDays (wall / msPerDay)
  let tod := wall % msPerDay
  let y' := y + mi / 12
  let m' := mi % 12 + 1
  daysFromCivil y' m' (min d (daysInMonth y' m')) * msPerDay + tod

/-- `dayjs.date(n)`: set the wall day of month, rolling over out-of-range
values into adjacent months. -/
def setDateLocal (n wall : Int) : Int :=
  let (y, m, _) := civilFromDays (wall / msPerDay)
  let tod := wall % msPerDay
  (daysFromCivil y m 1 + (n - 1)) * msPerDay + tod

/-- JS truthiness of `components.get(u)`: present and nonzero. -/
def truthyOpt (o : Option Int) : Bool :=
  match o with
  | some v => v != 0
  | none => false

/-- `DateParser.constructTimezoneAwareDate`: resolve a raw match to an
absolute instant, rendering the reference instant in the target timezone
(modelled by its fixed offset `off` in milliseconds).  `referenceDate` is the
per-call reference; `now` models the machine clock read by `dayjs()`. -/
def constructTimezoneAwareDate (r : RawMatch) (off : Int)
    (referenceDate : Option Int) (now : Int) : Int :=
  let c := r.start
  let originalText := lcMap r.text
  let referenceLocal := (referenceDate.getD now) + off
  let base0 : Int :=
    if jsIncludes originalText ("tomorrow".toList) then referenceLocal + msPerDay
    else if jsIncludes originalText ("yesterday".toList) then referenceLocal - msPerDay
    else if jsIncludes originalText ("today".toList) then referenceLocal
    else
      let b0 := startOfDayLocal (now + off)
      let b1 := if truthyOpt c.year then setYearLocal (c.year.getD 0) b0 else b0
      let b2 := if truthyOpt c.month then setMonthLocal (c.month.getD 0 - 1) b1 else b1
      if truthyOpt c.day then setDateLocal (c.day.getD 0) b2 else b2
  let base1 := if c.hourCertain then setHourLocal (c.hour.getD 0) base0 else base0
  let base2 := if c.minuteCertain then setMinuteLocal (c.minute.getD 0) base1 else base1
  let base3 := if c.secondCertain then setSecondLocal (c.second.getD 0) base2 else base2
  let base4 :=
    if !c.hourCertain && !c.minuteCertain && !c.secondCertain then
      if jsIncludes originalText ("today".toList) ||
          jsIncludes originalText ("tomorrow".toList) ||
          jsIncludes originalText ("yesterday".toList) then
        base3
      else
        startOfDayLocal base3
    else base3
  base4 - off

/-- The resolved, caller-facing extraction record. -/
structure DateExtraction where
  originalText : List Char
  resolvedDate : Int
  confidence : ℚ
  type : DType
  start : Nat
  endIdx : Nat
  grain : Grain
deriving DecidableEq, Repr

/-- `DateParser.convertChronoResult`. -/
def convertChronoResult (off : Int) (referenceDate : Option Int) (now : Int)
    (r : RawMatch) : DateExtraction :=
  { originalText := r.text
    resolvedDate := constructTimezoneAwareDate r off referenceDate now
    confidence := calculateConfidence r
    type := determineType r
    start := r.index
    endIdx := r.index + r.text.length
    grain := determineGrain r }

/-- `DateParser.parse`, abstracted over the external chrono grammar `g`
(text and reference instant to ordered raw matches). -/
def parse (g : List Char → Int → List RawMatch) (off : Int)
    (referenceDate : Option Int) (now : Int) (text : List Char) :
    List DateExtraction :=
  let refd := referenceDate.getD now
  (g text refd).map (convertChronoResult off referenceDate now)

/-- `DateParser.parseFirst`. -/
def parseFirst (g : List Char → Int → List RawMatch) (off : Int)
    (referenceDate : Option Int) (now : Int) (text : List Char) :
    Option DateExtraction :=
  (parse g off referenceDate now text).head?

/-- Decimal digits of `n` padded with zeros on the left to width `w`. -/
def padNat (w n : Nat) : List Char :=
  let ds := Nat.toDigits 10 n
  List.replicate (w - ds.length) '0' ++ ds

/-- `DateFormatter.formatCompact` / `toISOString().split('T')[0]`: the UTC
calendar date of an instant as `YYYY-MM-DD` (CE years). -/
def formatCompact (instant : Int) : List Char :=
  let (y, m, d) := civilFromDays (instant / msPerDay)
  padNat 4 y.toNat ++ '-' :: (padNat 2 m.toNat ++ '-' :: padNat 2 d.toNat)

/-- `Intl.DateTimeFormat(locale, numeric-hour 2-digit-minute hour12)` in the
en-US shape used by the normalize strategy: `h:mm AM` / `h:mm PM` rendered in
the configured timezone (fixed offset `off`). -/
def formatTime12 (off instant : Int) : List Char :=
  let tod := (instant + off) % msPerDay
  let h24 := tod / msPerHour
  let mnt := tod % msPerHour / msPerMinute
  let h12 := (h24 + 11) % 12 + 1
  let suffix := if h24 < 12 then "AM".toList else "PM".toList
  Nat.toDigits 10 h12.toNat ++ ':' :: (padNat 2 mnt.toNat ++ ' ' :: suffix)

/-- `DateFormatter.formatDateWithOriginal(date, originalText)`: the original
text with the parenthesized compact date appended.  Its TypeScript signature
takes no grain parameter; the extra argument passed at the hybrid call site
in `TimeAI.applyStrategy` is dropped. -/
def formatDateWithOriginal (date : Int) (originalText : List Char) : List Char :=
  originalText ++ ' ' :: '(' :: (formatCompact date ++ [')'])

inductive Strategy
  | preserve
  | normalize
  | hybrid
deriving DecidableEq, Repr

/-- Stable insertion used to model `[...extractions].sort((a, b) => b.start - a.start)`. -/
def insertDescByStart (e : DateExtraction) : List DateExtraction → List DateExtraction
  | [] => [e]
  | x :: xs => if e.start ≤ x.start then x :: insertDescByStart e xs else e :: x :: xs

/-- Sort extractions by descending start offset (stable), as the substitution
engine does before replacing right-to-left. -/
def sortByStartDesc (l : List DateExtraction) : List DateExtraction :=
  l.foldr insertDescByStart []

/-- `TimeAI.applyStrategy`: rewrite `text` by replacing each extraction span,
processing spans right-to-left.  `off` is the configured timezone's offset and
`tzName` the timezone identifier appended by the normalize strategy. -/
def applyStrategy (off : Int) (tzName : List Char) (text : List Char)
    (extractions : List DateExtraction) (strategy : Strategy) : List Char :=
  let sortedExtractions := sortByStartDesc extractions
  sortedExtractions.foldl
    (fun result e =>
      let replacement :=
        match strategy with
        | Strategy.preserve => e.originalText
        | Strategy.normalize =>
          if e.grain ≠ Grain.day then
            formatCompact e.resolvedDate ++ ' ' ::
              (formatTime12 off e.resolvedDate ++ ' ' :: tzName)
          else
            formatCompact e.resolvedDate
        | Strategy.hybrid => formatDateWithOriginal e.resolvedDate e.originalText
      jsSubstring result 0 e.start ++ replacement ++ jsSubstringFrom result e.endIdx)
    text

/-- `TimeContextManager` state: the pinned reference instant plus the
validated timezone and locale identifiers. -/
structure TimeContextManagerState where
  now : Int
  timezone : List Char
  locale : List Char
deriving DecidableEq, Repr

/-- `TimeContextManager.validateTimezone`: reject missing or empty
identifiers and those the environment's format probe refuses (`valid` models
the `Intl.DateTimeFormat` probe). -/
def validateTimezone (valid : List Char → Bool) (timezone : Option (List Char)) :
    Option (List Char) :=
  match timezone with
  | none => none
  | some tz => if tz.isEmpty then none else if valid tz then some tz else none

/-- `TimeContextManager.setTimezone`: keep the previous timezone unless the
new identifier validates. -/
def setTimezone (valid : List Char → Bool) (tz : List Char)
    (st : TimeContextManagerState) : TimeContextManagerState :=
  match validateTimezone valid (some tz) with
  | some v => { st with timezone := v }
  | none => st

/-- `TimeContextManager.updateNow`: pin the reference instant (defaults to
the machine clock `machineNow`). -/
def updateNow (date : Option Int) (machineNow : Int)
    (st : TimeContextManagerState) : TimeContextManagerState :=
  { st with now := date.getD machineNow }

/-- `TimeContextManager.getDaysDifference`:
`Math.ceil((date - now) / 86400000)` against the pinned reference instant. -/
def getDaysDifference (st : TimeContextManagerState) (date : Int) : Int :=
  Int.ceil (((date - st.now : Int) : ℚ) / 86400000)

/-- A JS local-calendar date triple as exposed by `getFullYear` /
`getMonth` (0-based) / `getDate` (1-based). -/
structure CivilDate where
  year : Int
  monthIdx : Int
  day : Int
deriving DecidableEq, Repr

/-- JS `Date.prototype.setMonth(mi, 0)`: normalize the (0-based) month index
with year carry, then take day 0, i.e. the last day of the month preceding
the normalized one; the result is `(year, 1-based month, day)`. -/
def setMonthDayZero (y mi : Int) : Int × Int × Int :=
  let yn := y + mi / 12
  let mn := mi % 12
  if mn = 0 then (yn - 1, 12, 31)
  else (yn, mn, daysInMonth yn mn)

/-- The `case month` arm of the end-of-period custom rule in
`DateParser.setupCustomParsers`: `targetDate.setMonth(targetDate.getMonth() + 1, 0)`
on a copy of the reference date, returned as a year/month/day triple. -/
def endOfMonthExtract (ref : CivilDate) : Int × Int × Int :=
  setMonthDayZero ref.year (ref.monthIdx + 1)

/-- Number of maximal whitespace-separated words (`text.trim().split(/\s+/)`
with empty words filtered). -/
def countWords (l : List Char) : Nat :=
  (l.foldl
    (fun acc ch =>
      if ch.isWhitespace then (acc.1, false)
      else if acc.2 then acc else (acc.1 + 1, true))
    ((0 : Nat), false)).1

/-- `DateFormatter.getTokenCount`: `ceil(words * 0.75)`, zero for
empty or whitespace-only text. -/
def getTokenCount (text : List Char) : Int :=
  if text.isEmpty then 0
  else if (text.filter (fun ch => !ch.isWhitespace)).isEmpty then 0
  else Int.ceil ((countWords text : ℚ) * (75 / 100))

def weekdayNames : List (List Char) :=
  ["Sunday".toList, "Monday".toList, "Tuesday".toList, "Wednesday".toList,
   "Thursday".toList, "Friday".toList, "Saturday".toList]

/-- en-US long weekday of an instant rendered at fixed offset `off`
(1970-01-01 was a Thursday). -/
def weekdayName (off instant : Int) : List Char :=
  (weekdayNames.getD ((((instant + off) / msPerDay + 4) % 7).toNat) [])

/-- `DateFormatter.formatForLLMContext` at machine time `now`. -/
def formatForLLMContext (off : Int) (tzName : List Char) (now : Int) : List Char :=
  "Current date: ".toList ++ formatCompact now ++ ' ' :: '(' ::
    (weekdayName off now ++ ',' :: ' ' ::
      (padNat 4 ((civilFromDays (now / msPerDay)).1).toNat ++ ')' :: '\n' ::
        ("Timezone: ".toList ++ tzName)))

/-- A JS value passed where the public API expects a text string. -/
inductive JSTextInput
  | jsNull
  | jsUndefined
  | jsString (s : List Char)
  | jsOther
deriving DecidableEq, Repr

/-- The guard `!text || typeof text !== 'string'` shared by the public entry
points (empty strings are falsy, so they trip it too). -/
def textGuardFails : JSTextInput → Bool
  | JSTextInput.jsString s => s.isEmpty
  | _ => true

def textOfInput : JSTextInput → List Char
  | JSTextInput.jsString s => s
  | _ => []

/-- `TimeAI.enhancePrompt` result record. -/
structure EnhancedPrompt where
  originalText : List Char
  enhancedText : List Char
  context : List Char
  extractions : List DateExtraction
  tokensAdded : Int
deriving DecidableEq, Repr

/-- `TimeAI.enhancePrompt`, abstracted over the chrono grammar `g` and the
instance configuration (timezone offset `off` and name `tzName`,
`includeContext`, configured strategy); `now` models the machine clock,
which `TimeContextManager.getContext().now` re-reads on every call. -/
def enhancePrompt (g : List Char → Int → List RawMatch) (off : Int)
    (tzName : List Char) (includeContext : Bool) (configStrategy : Strategy)
    (now : Int) (input : JSTextInput) (optStrategy : Option Strategy) :
    EnhancedPrompt :=
  let text := if textGuardFails input then [] else textOfInput input
  let strategy := optStrategy.getD configStrategy
  let extractions := parse g off (some now) now text
  let enhancedText :=
    if extractions.length > 0 then applyStrategy off tzName text extractions strategy
    else text
  let context := if includeContext then formatForLLMContext off tzName now else []
  let contextTokens : Int := if includeContext then getTokenCount context else 0
  { originalText := text
    enhancedText := enhancedText
    context := context
    extractions := extractions
    tokensAdded := contextTokens + (getTokenCount enhancedText - getTokenCount text) }

/-- `TimeAI.parseDate`: first extraction, or `null` for guarded input. -/
def parseDateAI (g : List Char → Int → List RawMatch) (off now : Int)
    (input : JSTextInput) : Option DateExtraction :=
  if textGuardFails input then none
  else parseFirst g off (some now) now (textOfInput input)

/-- `TimeAI.parseDates`: all extractions, or `[]` for guarded input. -/
def parseDatesAI (g : List Char → Int → List RawMatch) (off now : Int)
    (input : JSTextInput) : List DateExtraction :=
  if textGuardFails input then []
  else parse g off (some now) now (textOfInput input)

/-- The slice of `TimeAI` instance state relevant to timezone handling: the
`config.timezone` string the instance forwards to the parser, plus the
embedded context-manager state. -/
structure TimeAIState where
  configTimezone : List Char
  ctx : TimeContextManagerState
deriving DecidableEq, Repr

/-- `TimeAI.setTimezone`: stores the identifier in `config.timezone`
unconditionally, then delegates to the context manager's validated setter. -/
def setTimezoneAI (valid : List Char → Bool) (tz : List Char)
    (st : TimeAIState) : TimeAIState :=
  { configTimezone := tz, ctx := setTimezone valid tz st.ctx }

/-- `DateParser.parse` seen from the `TimeAI` call boundary, where the
timezone is still a string identifier: each converted result calls
`constructTimezoneAwareDate(result, options.timezone || 'UTC', ...)`, whose
`dayjs.tz` raises `RangeError` on an identifier the IANA lookup (`resolve`)
rejects.  `none` models that propagated exception; the lookup is only
reached when chrono produced at least one match. -/
def parseResolvingTz (g : List Char → Int → List RawMatch)
    (resolve : List Char → Option Int) (tzName : List Char)
    (referenceDate : Option Int) (now : Int) (text : List Char) :
    Option (List DateExtraction) :=
  let refd := referenceDate.getD now
  let results := g text refd
  if results.isEmpty then some []
  else
    match resolve (if tzName.isEmpty then "UTC".toList else tzName) with
    | some off => some (results.map (convertChronoResult off referenceDate now))
    | none => none

/-- `TimeAI.parseDates` with the instance's configured timezone string
(`none` models an exception escaping the call). -/
def parseDatesAIString (g : List Char → Int → List RawMatch)
    (resolve : List Char → Option Int) (st : TimeAIState) (now : Int)
    (input : JSTextInput) : Option (List DateExtraction) :=
  if textGuardFails input then some []
  else parseResolvingTz g resolve st.configTimezone (some now) now
    (textOfInput input)

/-- Local calendar-day number of an instant rendered at fixed offset `off`. -/
def localDayOf (off instant : Int) : Int :=
  (instant + off) / msPerDay

/-- Local time of day (milliseconds past local midnight) of an instant. -/
def localMsOfDay (off instant : Int) : Int :=
  (instant + off) % msPerDay

/-- Local hour field of an instant rendered at fixed offset `off`. -/
def localHourOf (off instant : Int) : Int :=
  (instant + off) % msPerDay / msPerHour

/-- No time component of the raw match is marked certain by the grammar. -/
def noCertainTime (c : RawComponents) : Prop :=
  c.hourCertain = false ∧ c.minuteCertain = false ∧ c.secondCertain = false

/-! ## Theorems -/

/-- Both clamp bounds of `min (max c 0) 1`. -/
lemma clamp_unit_bounds (c : ℚ) : 0 ≤ min (max c 0) 1 ∧ min (max c 0) 1 ≤ 1 :=
  ⟨le_min (le_max_right _ _) zero_le_one, min_le_right _ _⟩

/-- C5: the extraction grain is the most precise time component the grammar
marks certain — second over minute over hour — and day exactly when no time
component is certain; it is a function of the certainty flags alone, so a
component the grammar filled in by default never raises it. -/
theorem determineGrain_most_precise_certain (r : RawMatch) :
    determineGrain r =
      mostPreciseCertainGrain r.start.secondCertain r.start.minuteCertain
        r.start.hourCertain
    ∧ (determineGrain r = Grain.day ↔
        r.start.secondCertain = false ∧ r.start.minuteCertain = false
          ∧ r.start.hourCertain = false) := by
  refine ⟨rfl, ?_⟩
  unfold determineGrain
  rcases r with ⟨t, i, c⟩
  rcases c with ⟨y, mo, d, h, mi, se, hc, mc, sc⟩
  cases hc <;> cases mc <;> cases sc <;> simp

/-- C6: the confidence score is the clamp to `[0, 1]` of base 0.7 plus 0.15
for a present hour, 0.10 for a present minute, 0.10 for a present year, minus
0.4 for an ambiguity keyword, minus 0.3 for a match of at most 3 characters,
plus 0.2 for a clear temporal indicator; in particular it always lies in
`[0, 1]`. -/
theorem calculateConfidence_formula_and_bounds (r : RawMatch) :
    calculateConfidence r =
      min (max ((7 : ℚ)/10
        + (if r.start.hour.isSome then 15/100 else 0)
        + (if r.start.minute.isSome then 1/10 else 0)
        + (if r.start.year.isSome then 1/10 else 0)
        - (if ambiguousWords.any (fun w => jsIncludes (lcMap r.text) w) then 4/10 else 0)
        - (if r.text.length ≤ 3 then 3/10 else 0)
        + (if clearIndicators.any (fun w => jsIncludes (lcMap r.text) w) then 2/10 else 0))
        0) 1
    ∧ 0 ≤ calculateConfidence r ∧ calculateConfidence r ≤ 1 := by
  refine ⟨?_, ?_, ?_⟩
  · simp only [calculateConfidence]
    split_ifs <;> norm_num
  · simp only [calculateConfidence]
    exact (clamp_unit_bounds _).1
  · simp only [calculateConfidence]
    exact (clamp_unit_bounds _).2

/-- C7: for every reference calendar date, the end-of-period custom rule's
month arm resolves to the last calendar day of the reference date's month. -/
theorem endOfMonthExtract_last_day (ref : CivilDate)
    (h0 : 0 ≤ ref.monthIdx) (h1 : ref.monthIdx ≤ 11) :
    endOfMonthExtract ref =
      (ref.year, ref.monthIdx + 1, daysInMonth ref.year (ref.monthIdx + 1)) := by
  rcases ref with ⟨y, mi, d⟩
  simp only [endOfMonthExtract, setMonthDayZero] at *
  interval_cases mi <;> norm_num [daysInMonth]

/-- Witness for C7 at the spec's scenarios: February resolves to day 28 in
2025 and to day 29 in the leap year 2024. -/
theorem endOfMonthExtract_last_day_witness :
    endOfMonthExtract ⟨2025, 1, 10⟩ = (2025, 2, 28)
    ∧ endOfMonthExtract ⟨2024, 1, 10⟩ = (2024, 2, 29) :=
  ⟨(endOfMonthExtract_last_day ⟨2025, 1, 10⟩ (by norm_num) (by norm_num)).trans
      (by decide),
    (endOfMonthExtract_last_day ⟨2024, 1, 10⟩ (by norm_num) (by norm_num)).trans
      (by decide)⟩

/-- C8: `getDaysDifference` computes the ceiling of the millisecond delta
between its argument and the pinned reference instant divided by one day:
the unique integer `n` with `(n−1)·86400000 < d − now ≤ n·86400000`.  The
reference is the pinned `now` written by `updateNow`, and an instant 30
minutes past the next local midnight yields +1. -/
theorem getDaysDifference_ceiling (st : TimeContextManagerState) (d : Int) :
    (getDaysDifference st d - 1) * 86400000 < d - st.now
    ∧ d - st.now ≤ getDaysDifference st d * 86400000
    ∧ (∀ t machineNow, getDaysDifference (updateNow (some t) machineNow st) d
        = Int.ceil (((d - t : Int) : ℚ) / 86400000))
    ∧ getDaysDifference ⟨82800000, [], []⟩ 88200000 = 1 := by
  have hpos : (0 : ℚ) < 86400000 := by norm_num
  have hle : ((d - st.now : Int) : ℚ) / 86400000 ≤ ((getDaysDifference st d : Int) : ℚ) :=
    Int.le_ceil _
  have hlt : ((getDaysDifference st d : Int) : ℚ) - 1
      < ((d - st.now : Int) : ℚ) / 86400000 := by
    have h1 := Int.ceil_lt_add_one (((d - st.now : Int) : ℚ) / 86400000)
    have h2 : ((getDaysDifference st d : Int) : ℚ)
        = ((Int.ceil (((d - st.now : Int) : ℚ) / 86400000) : Int) : ℚ) := rfl
    rw [h2]
    linarith
  refine ⟨?_, ?_, fun t machineNow => rfl, ?_⟩
  · have h3 : (((getDaysDifference st d : Int) : ℚ) - 1) * 86400000
        < ((d - st.now : Int) : ℚ) := (lt_div_iff₀ hpos).mp hlt
    exact_mod_cast h3
  · have h4 : ((d - st.now : Int) : ℚ)
        ≤ ((getDaysDifference st d : Int) : ℚ) * 86400000 := by
      rw [← div_le_iff₀ hpos]
      exact hle
    exact_mod_cast h4
  · show Int.ceil (((88200000 - 82800000 : Int) : ℚ) / 86400000) = 1
    rw [Int.ceil_eq_iff]
    norm_num

/-- Manager-level half of the invalid-timezone behavior: an identifier the
validation probe rejects leaves `TimeContextManager` state — and hence every
computation reading it — untouched. -/
theorem setTimezone_invalid_noop (valid : List Char → Bool) (tz : List Char)
    (st : TimeContextManagerState) (h : valid tz = false) :
    setTimezone valid tz st = st
    ∧ (setTimezone valid tz st).timezone = st.timezone
    ∧ ∀ d, getDaysDifference (setTimezone valid tz st) d = getDaysDifference st d := by
  have hset : setTimezone valid tz st = st := by
    unfold setTimezone validateTimezone
    by_cases he : tz.isEmpty <;> simp [he, h]
  exact ⟨hset, by rw [hset], fun d => by rw [hset]⟩

/-- Instance of the manager-level no-op at a concretely rejected
identifier. -/
theorem setTimezone_invalid_noop_witness :
    setTimezone (fun _ => false) ("Bad/Zone".toList)
        ⟨0, "UTC".toList, "en-US".toList⟩
      = ⟨0, "UTC".toList, "en-US".toList⟩ :=
  (setTimezone_invalid_noop (fun _ => false) _ _ rfl).1

/-- C9 evidence: `TimeAI.setTimezone` stores a rejected identifier in
`config.timezone` unconditionally, so although the context manager retains
the previous valid timezone, the instance's next parse of a text containing
a date hands the invalid identifier to the timezone lookup and aborts with
the modelled `RangeError` instead of using the retained timezone — the same
call succeeds before the invalid `setTimezone`. -/
theorem setTimezoneAI_invalid_not_noop :
    (setTimezoneAI (fun s => s == "UTC".toList) ("Invalid/Timezone".toList)
        ⟨"UTC".toList, ⟨0, "UTC".toList, "en-US".toList⟩⟩).configTimezone
      = ("Invalid/Timezone".toList)
    ∧ (setTimezoneAI (fun s => s == "UTC".toList) ("Invalid/Timezone".toList)
        ⟨"UTC".toList, ⟨0, "UTC".toList, "en-US".toList⟩⟩).ctx.timezone
      = ("UTC".toList)
    ∧ parseDatesAIString
        (fun _ _ => [⟨"tomorrow".toList, 5,
          ⟨none, none, none, none, none, none, false, false, false⟩⟩])
        (fun s => if s == "UTC".toList then some 0 else none)
        (setTimezoneAI (fun s => s == "UTC".toList) ("Invalid/Timezone".toList)
          ⟨"UTC".toList, ⟨0, "UTC".toList, "en-US".toList⟩⟩)
        0 (JSTextInput.jsString ("meet tomorrow".toList))
      = none
    ∧ parseDatesAIString
        (fun _ _ => [⟨"tomorrow".toList, 5,
          ⟨none, none, none, none, none, none, false, false, false⟩⟩])
        (fun s => if s == "UTC".toList then some 0 else none)
        ⟨"UTC".toList, ⟨0, "UTC".toList, "en-US".toList⟩⟩
        0 (JSTextInput.jsString ("meet tomorrow".toList))
      ≠ none := by
  refine ⟨by decide, by decide, by decide, by decide⟩

lemma take_clamp (t : List Char) (s : Nat) : t.take s = t.take (min s t.length) := by
  rcases le_total s t.length with h | h
  · rw [min_eq_left h]
  · rw [min_eq_right h, List.take_length, List.take_of_length_le h]

lemma drop_clamp (t : List Char) (e : Nat) : t.drop e = t.drop (min e t.length) := by
  rcases le_total e t.length with h | h
  · rw [min_eq_left h]
  · rw [min_eq_right h, List.drop_length, List.drop_eq_nil_of_le h]

lemma jsSubstring_zero (t : List Char) (s : Nat) :
    jsSubstring t 0 s = t.take (min s t.length) := by
  unfold jsSubstring
  have hz : min 0 t.length = 0 := by omega
  rw [hz, max_eq_right (Nat.zero_le _), min_eq_left (Nat.zero_le _), List.drop_zero]

/-- Splitting a list at an in-order span and gluing the three JS substring
pieces back together recovers the list. -/
lemma jsSubstring_glue (t : List Char) (s e : Nat) (hse : s ≤ e) :
    jsSubstring t 0 s ++ jsSubstring t s e ++ jsSubstringFrom t e = t := by
  have hm : min s t.length ≤ min e t.length := by omega
  rw [jsSubstring_zero]
  unfold jsSubstring jsSubstringFrom
  rw [max_eq_right hm, min_eq_left hm]
  have h1 : t.take (min s t.length) = (t.take (min e t.length)).take (min s t.length) := by
    rw [List.take_take, min_eq_left hm]
  rw [h1, List.take_append_drop, drop_clamp t e, List.take_append_drop]

/-- A single preserve-strategy replacement over a text satisfying the span
invariant is the identity. -/
lemma preserve_step (t : List Char) (e : DateExtraction)
    (hlen : e.endIdx = e.start + e.originalText.length)
    (hsub : jsSubstring t e.start e.endIdx = e.originalText) :
    jsSubstring t 0 e.start ++ e.originalText ++ jsSubstringFrom t e.endIdx = t := by
  rw [← hsub]
  exact jsSubstring_glue t e.start e.endIdx (by omega)

lemma foldl_preserve_fixed (t : List Char) :
    ∀ l : List DateExtraction,
      (∀ e ∈ l, e.endIdx = e.start + e.originalText.length
        ∧ jsSubstring t e.start e.endIdx = e.originalText) →
      l.foldl (fun result e =>
        jsSubstring result 0 e.start ++ e.originalText
          ++ jsSubstringFrom result e.endIdx) t = t
  | [], _ => rfl
  | e :: rest, h => by
    have h1 := h e (List.mem_cons_self _ _)
    have hstep := preserve_step t e h1.1 h1.2
    simp only [List.foldl_cons, hstep]
    exact foldl_preserve_fixed t rest (fun x hx => h x (List.mem_cons_of_mem _ hx))

lemma mem_of_mem_insertDescByStart {e' e : DateExtraction} :
    ∀ {l : List DateExtraction}, e' ∈ insertDescByStart e l → e' = e ∨ e' ∈ l := by
  intro l
  induction l with
  | nil =>
    intro h
    simp only [insertDescByStart, List.mem_singleton] at h
    exact Or.inl h
  | cons x xs ih =>
    intro h
    simp only [insertDescByStart] at h
    split at h
    · rcases List.mem_cons.mp h with h1 | h2
      · exact Or.inr (List.mem_cons.mpr (Or.inl h1))
      · rcases ih h2 with h3 | h4
        · exact Or.inl h3
        · exact Or.inr (List.mem_cons.mpr (Or.inr h4))
    · rcases List.mem_cons.mp h with h1 | h2
      · exact Or.inl h1
      · exact Or.inr h2

lemma mem_of_mem_sortByStartDesc {e : DateExtraction} :
    ∀ {l : List DateExtraction}, e ∈ sortByStartDesc l → e ∈ l := by
  intro l
  induction l with
  | nil => intro h; simp [sortByStartDesc] at h
  | cons x xs ih =>
    intro h
    have h2 : e ∈ insertDescByStart x (sortByStartDesc xs) := h
    rcases mem_of_mem_insertDescByStart h2 with h3 | h4
    · exact h3 ▸ List.mem_cons_self _ _
    · exact List.mem_cons_of_mem _ (ih h4)

/-- C2: on any extraction list satisfying the span invariant against `t`
(as every list derived from `t` does), the preserve strategy rewrites `t` to
itself, whatever the number or adjacency of the extractions. -/
theorem applyStrategy_preserve_identity (off : Int) (tzName t : List Char)
    (extractions : List DateExtraction)
    (hinv : ∀ e ∈ extractions, e.endIdx = e.start + e.originalText.length
      ∧ jsSubstring t e.start e.endIdx = e.originalText) :
    applyStrategy off tzName t extractions Strategy.preserve = t := by
  unfold applyStrategy
  exact foldl_preserve_fixed t (sortByStartDesc extractions)
    (fun e he => hinv e (mem_of_mem_sortByStartDesc he))

/-- Witness for C2: two adjacent extractions, preserve returns the text. -/
theorem applyStrategy_preserve_identity_witness :
    applyStrategy 0 [] ("tomorrowtoday".toList)
      [⟨"tomorrow".toList, 0, 1, DType.relative, 0, 8, Grain.day⟩,
       ⟨"today".toList, 0, 1, DType.relative, 8, 13, Grain.day⟩]
      Strategy.preserve = ("tomorrowtoday".toList) :=
  applyStrategy_preserve_identity 0 [] _ _ (by decide)

/-- C1: extractions inherit chrono's span contract — the slice of `t` from
`start` to `endIdx` is the original text, `endIdx = start + length`, and the
start offsets are non-decreasing in scan order. -/
theorem parse_span_invariant (g : List Char → Int → List RawMatch)
    (off : Int) (referenceDate : Option Int) (now : Int) (t : List Char)
    (hsub : ∀ m ∈ g t (referenceDate.getD now),
      jsSubstring t m.index (m.index + m.text.length) = m.text)
    (hord : (g t (referenceDate.getD now)).Pairwise (fun a b => a.index ≤ b.index)) :
    (∀ e ∈ parse g off referenceDate now t,
      jsSubstring t e.start e.endIdx = e.originalText
      ∧ e.endIdx = e.start + e.originalText.length)
    ∧ (parse g off referenceDate now t).Pairwise (fun a b => a.start ≤ b.start) := by
  constructor
  · intro e he
    unfold parse at he
    simp only [List.mem_map] at he
    obtain ⟨m, hm, rfl⟩ := he
    exact ⟨hsub m hm, rfl⟩
  · unfold parse
    exact List.Pairwise.map _ (fun a b h => h) hord

/-- Witness for C1 on a concrete grammar output. -/
theorem parse_span_invariant_witness :
    (∀ e ∈ parse
      (fun _ _ => [⟨"tomorrow".toList, 5,
        ⟨none, none, none, none, none, none, false, false, false⟩⟩])
      0 none 0 ("call tomorrow".toList),
      jsSubstring ("call tomorrow".toList) e.start e.endIdx = e.originalText
      ∧ e.endIdx = e.start + e.originalText.length)
    ∧ (parse
      (fun _ _ => [⟨"tomorrow".toList, 5,
        ⟨none, none, none, none, none, none, false, false, false⟩⟩])
      0 none 0 ("call tomorrow".toList)).Pairwise (fun a b => a.start ≤ b.start) :=
  parse_span_invariant _ 0 none 0 _ (by decide) (by decide)

/-- C3 evidence: the hybrid strategy applied to a minute-grain extraction of
"tomorrow at 3pm" (resolved 2025-09-16 15:00 UTC) appends only the compact
date, not the localized time and timezone the specification and the
repository's own grain tests require — `formatDateWithOriginal` has no grain
parameter, so the grain passed at the call site is dropped. -/
theorem applyStrategy_hybrid_drops_time :
    applyStrategy 0 ("UTC".toList) ("Meet tomorrow at 3pm".toList)
      [⟨"tomorrow at 3pm".toList,
        daysFromCivil 2025 9 16 * 86400000 + 15 * 3600000,
        1, DType.relative, 5, 20, Grain.minute⟩] Strategy.hybrid
      = ("Meet tomorrow at 3pm (2025-09-16)".toList)
    ∧ applyStrategy 0 ("UTC".toList) ("Meet tomorrow at 3pm".toList)
      [⟨"tomorrow at 3pm".toList,
        daysFromCivil 2025 9 16 * 86400000 + 15 * 3600000,
        1, DType.relative, 5, 20, Grain.minute⟩] Strategy.hybrid
      ≠ ("Meet tomorrow at 3pm (2025-09-16 3:00 PM UTC)".toList) := by
  constructor
  · decide
  · decide

/-- C10: null, undefined, or non-string input degrades: `enhancePrompt`
treats it as the empty string (empty original and enhanced text), `parseDate`
returns no extraction, and `parseDates` returns the empty list, given that
the grammar finds no match in the empty string. -/
theorem entry_points_degrade (g : List Char → Int → List RawMatch)
    (off : Int) (tzName : List Char) (ic : Bool) (cs : Strategy) (now : Int)
    (input : JSTextInput) (optStrategy : Option Strategy)
    (hg : g [] now = [])
    (hin : input = JSTextInput.jsNull ∨ input = JSTextInput.jsUndefined
      ∨ input = JSTextInput.jsOther) :
    (enhancePrompt g off tzName ic cs now input optStrategy).originalText = []
    ∧ (enhancePrompt g off tzName ic cs now input optStrategy).enhancedText = []
    ∧ parseDateAI g off now input = none
    ∧ parseDatesAI g off now input = [] := by
  have hguard : textGuardFails input = true := by
    rcases hin with rfl | rfl | rfl <;> rfl
  refine ⟨?_, ?_, ?_, ?_⟩ <;>
    simp [enhancePrompt, parseDateAI, parseDatesAI, parseFirst, parse, hguard, hg]

/-- Witness for C10 at a concrete null input and empty grammar. -/
theorem entry_points_degrade_witness :
    (enhancePrompt (fun _ _ => []) 0 [] false Strategy.hybrid 0
      JSTextInput.jsNull none).originalText = []
    ∧ (enhancePrompt (fun _ _ => []) 0 [] false Strategy.hybrid 0
      JSTextInput.jsNull none).enhancedText = []
    ∧ parseDateAI (fun _ _ => []) 0 0 JSTextInput.jsNull = none
    ∧ parseDatesAI (fun _ _ => []) 0 0 JSTextInput.jsNull = [] :=
  entry_points_degrade (fun _ _ => []) 0 [] false Strategy.hybrid 0
    JSTextInput.jsNull none rfl (Or.inl rfl)

/-- C4: when the matched text contains "tomorrow" / "yesterday" / "today"
(in the code's precedence order), the resolved instant renders in the target
timezone as the reference's local calendar day shifted by +1 / −1 / 0; the
reference's local time of day is preserved when no time component is certain,
and a certain hour component overrides the local hour field. -/
theorem constructTimezoneAwareDate_relative_days (r : RawMatch) (off ref now : Int) :
    (jsIncludes (lcMap r.text) ("tomorrow".toList) = true →
      (noCertainTime r.start →
        localDayOf off (constructTimezoneAwareDate r off (some ref) now)
          = localDayOf off ref + 1
        ∧ localMsOfDay off (constructTimezoneAwareDate r off (some ref) now)
          = localMsOfDay off ref)
      ∧ (∀ h, r.start.hourCertain = true → r.start.hour = some h →
          0 ≤ h → h < 24 → r.start.minuteCertain = false →
          r.start.secondCertain = false →
          localDayOf off (constructTimezoneAwareDate r off (some ref) now)
            = localDayOf off ref + 1
          ∧ localHourOf off (constructTimezoneAwareDate r off (some ref) now) = h))
    ∧ (jsIncludes (lcMap r.text) ("tomorrow".toList) = false →
        jsIncludes (lcMap r.text) ("yesterday".toList) = true →
        noCertainTime r.start →
        localDayOf off (constructTimezoneAwareDate r off (some ref) now)
          = localDayOf off ref - 1
        ∧ localMsOfDay off (constructTimezoneAwareDate r off (some ref) now)
          = localMsOfDay off ref)
    ∧ (jsIncludes (lcMap r.text) ("tomorrow".toList) = false →
        jsIncludes (lcMap r.text) ("yesterday".toList) = false →
        jsIncludes (lcMap r.text) ("today".toList) = true →
        noCertainTime r.start →
        localDayOf off (constructTimezoneAwareDate r off (some ref) now)
          = localDayOf off ref
        ∧ localMsOfDay off (constructTimezoneAwareDate r off (some ref) now)
          = localMsOfDay off ref) := by
  refine ⟨fun htom => ⟨fun hnc => ?_, fun h hhc hh h0 h24 hmc hsc => ?_⟩,
    fun htom hyes hnc => ?_, fun htom hyes htod hnc => ?_⟩
  · obtain ⟨hc, mc, sc⟩ := hnc
    simp only [constructTimezoneAwareDate, htom, hc, mc, sc, Option.getD_some,
      if_true, Bool.not_false, Bool.and_self, Bool.or_true, Bool.true_or,
      ite_true, Bool.false_eq_true, ite_false, localDayOf, localMsOfDay]
    unfold msPerDay
    omega
  · simp only [constructTimezoneAwareDate, htom, hhc, hh, hmc, hsc,
      Option.getD_some, if_true, Bool.not_true, Bool.false_and, Bool.and_false,
      Bool.false_eq_true, ite_false, ite_true, localDayOf, localHourOf]
    unfold setHourLocal msPerDay msPerHour
    constructor
    · omega
    · omega
  · obtain ⟨hc, mc, sc⟩ := hnc
    simp only [constructTimezoneAwareDate, htom, hyes, hc, mc, sc,
      Option.getD_some, Bool.false_eq_true, ite_false, if_true, Bool.not_false,
      Bool.and_self, Bool.or_true, ite_true, localDayOf, localMsOfDay]
    unfold msPerDay
    omega
  · obtain ⟨hc, mc, sc⟩ := hnc
    simp only [constructTimezoneAwareDate, htom, hyes, htod, hc, mc, sc,
      Option.getD_some, Bool.false_eq_true, ite_false, if_true, Bool.not_false,
      Bool.and_self, Bool.true_or, Bool.or_true, ite_true, localDayOf,
      localMsOfDay]
    unfold msPerDay
    omega

/-- Witness for C4: "tomorrow" at offset +1h shifts the local day by one and
keeps the local time of day. -/
theorem constructTimezoneAwareDate_relative_days_witness :
    localDayOf 3600000 (constructTimezoneAwareDate
        ⟨"tomorrow".toList, 0,
          ⟨none, none, none, none, none, none, false, false, false⟩⟩
        3600000 (some 82800000) 0)
      = localDayOf 3600000 82800000 + 1
    ∧ localMsOfDay 3600000 (constructTimezoneAwareDate
        ⟨"tomorrow".toList, 0,
          ⟨none, none, none, none, none, none, false, false, false⟩⟩
        3600000 (some 82800000) 0)
      = localMsOfDay 3600000 82800000 :=
  ((constructTimezoneAwareDate_relative_days _ 3600000 82800000 0).1
      (by decide)).1 ⟨rfl, rfl, rfl⟩

end TimeAI
